import Mathlib

/-!
# Verification of the wiki knowledge-graph ingestion pipeline

A shallow embedding of the document-to-chunk hierarchy parser, the
paragraph splitter, link extraction, uid assignment and the buffered
graph writer of this repository, together with proofs settling the
frozen claims about them.

Sources embedded:
* `kgraph2/page_parser.py` (`PageParserInner.__iter__`)
* `kgraph/parser.py` (`split_paragraphs`, `eval_hierarchy`,
  `process_paragraph_line`'s link extraction)
* `kgraph2/models.py` (`Chunk.get_links`)
* `kgraph2/client.py` (`_flush_nodes_unlocked`, `_flush_links_unlocked`)
* `main.py` (`get_uid`, `get_heading_uid`, the embedding batch flush)

Python strings are modelled as Lean `String`/`List Char` (`str.strip` as
whitespace trimming, `str.isspace` as `Char.isWhitespace`); fallible code
(Python exceptions such as `IndexError`) is modelled with `Except`;
dictionaries are association lists.
-/

/-! ## Python string primitives

Core `String` operations (`String.trim`, `String.splitOn`, …) are defined
by well-founded recursion and do not reduce definitionally, so the Python
string operations are modelled by structurally recursive functions over
`List Char`. -/

/-- Python `str.isspace` for a single character (ASCII whitespace; the
documents in question are handled identically). -/
def isSpaceChar (c : Char) : Bool := c.isWhitespace

/-- Python `str.strip()`: remove whitespace from both ends. -/
def wsTrim (cs : List Char) : List Char :=
  ((cs.dropWhile isSpaceChar).reverse.dropWhile isSpaceChar).reverse

/-- Python `str.strip()` on a `String`. -/
def pyStrip (s : String) : String := String.mk (wsTrim s.toList)

/-- Split a character list at newline characters (the separators are
dropped; a trailing newline yields a final empty line, as Python's
`"a\n".split("\n") == ["a", ""]`). -/
def splitLinesAux : List Char → List Char → List (List Char)
  | [], acc => [acc.reverse]
  | c :: r, acc =>
    if c = '\n' then acc.reverse :: splitLinesAux r []
    else splitLinesAux r (c :: acc)

/-- Split a string into its newline-separated lines. -/
def splitLines (cs : List Char) : List (List Char) := splitLinesAux cs []

/-! ## Data model (`kgraph2/models.py`) -/

/-- `NodeType` enum from `kgraph2/models.py`. -/
inductive NodeType
  | TITLE
  | HEADING
  | PARAGRAPH
deriving DecidableEq, Repr

/-- `Chunk` dataclass from `kgraph2/models.py` (the `metadata` dict, which
never influences parsing, is omitted). -/
structure Chunk where
  content : String
  index : Nat
  type : NodeType
  hierarchy_owner : String
deriving DecidableEq, Repr

/-! ## The hierarchy parser (`kgraph2/page_parser.py`, `PageParserInner`)

`PageParserInner.__iter__` iterates over the node stream produced by the
external library `mwparserfromhell`: a sequence of heading nodes (with a
level and a title) and text-like nodes.  `WNode` is that node stream. -/

/-- A node of the parsed wikicode stream consumed by `PageParserInner`:
either a heading (with nesting level and raw title text) or a text-like
node rendered to a string. -/
inductive WNode
  | heading (level : Nat) (title : String)
  | text (s : String)
deriving DecidableEq, Repr

/-- `str(node)` for a heading node: the title surrounded by `level` equals
signs on both sides. -/
def headingStr (level : Nat) (title : String) : String :=
  String.mk (List.replicate level '=') ++ title ++ String.mk (List.replicate level '=')

/-- Parser state of `PageParserInner.__iter__`: the pending paragraph
buffer `current_block`, the running `chunk_index`, the `hierarchy_stack`
(top of stack is the LAST list element, as in the Python list), and the
chunks emitted so far in order. -/
structure PPState where
  current_block : List String
  chunk_index : Nat
  hierarchy_stack : List String
  emitted : List Chunk
deriving DecidableEq, Repr

/-- The loop body of `while len(hierarchy_stack) >= heading_level:
hierarchy_stack.pop()`, acting on the REVERSED stack so that popping the
Python list's last element is removing the head.  `list.pop()` on an
empty list raises `IndexError`, modelled as `Except.error` (reachable
only when `level = 0`). -/
def popFromTop (level : Nat) : List String → Except Unit (List String)
  | [] => if ([] : List String).length ≥ level then .error () else .ok []
  | a :: t => if (a :: t).length ≥ level then popFromTop level t else .ok (a :: t)

/-- `while len(hierarchy_stack) >= heading_level: hierarchy_stack.pop()`:
run the loop on the reversed list and reverse the remainder back. -/
def popWhileLen (stack : List String) (level : Nat) : Except Unit (List String) :=
  (popFromTop level stack.reverse).map List.reverse

/-- `hierarchy_stack[-1]`: the top of the stack; raises `IndexError` on an
empty stack, modelled as `Except.error`. -/
def stackTop (stack : List String) : Except Unit String :=
  match stack.getLast? with
  | some t => .ok t
  | none => .error ()

/-- Flushing the pending paragraph buffer: if `current_block` is nonempty,
emit `Chunk("".join(current_block).strip(), chunk_index, PARAGRAPH,
hierarchy_stack[-1])`, increment the index and clear the buffer. -/
def flushBlock (st : PPState) : Except Unit PPState :=
  if st.current_block.isEmpty then .ok st
  else do
    let owner ← stackTop st.hierarchy_stack
    .ok { st with
          emitted := st.emitted ++
            [⟨pyStrip (String.mk (st.current_block.map String.toList).flatten),
              st.chunk_index, .PARAGRAPH, owner⟩],
          chunk_index := st.chunk_index + 1,
          current_block := [] }

/-- One iteration of the `for node in wikicode.nodes` loop of
`PageParserInner.__iter__`. -/
def ppStep (st : PPState) (n : WNode) : Except Unit PPState :=
  match n with
  | .heading level htitle => do
      let st ← flushBlock st
      let stack2 ← popWhileLen st.hierarchy_stack level
      let owner ← stackTop stack2
      .ok { st with
            emitted := st.emitted ++
              [⟨pyStrip (headingStr level htitle), st.chunk_index, .HEADING, owner⟩],
            chunk_index := st.chunk_index + 1,
            hierarchy_stack := stack2 ++ [pyStrip htitle] }
  | .text s =>
      if pyStrip s ≠ "" ∨ ¬ st.current_block.isEmpty then
        .ok { st with current_block := st.current_block ++ [s] }
      else .ok st

/-- Initial parser state: `hierarchy_stack = [self.page.title]`. -/
def ppInit (title : String) : PPState := ⟨[], 0, [title], []⟩

/-- `PageParserInner.__iter__` on a wikicode node stream: run the loop over
all nodes, then flush the remaining paragraph buffer; the result is the
ordered list of chunks yielded, or an error if the Python code would
raise `IndexError`. -/
def ppRun (title : String) (nodes : List WNode) : Except Unit (List Chunk) := do
  let st ← nodes.foldlM ppStep (ppInit title)
  let st ← flushBlock st
  .ok st.emitted

/-- Modelled from the spec: the tokenization step performed by the external
library `mwparserfromhell` (absent from `src/`), which the spec describes
as distinguishing "heading markers (a nesting level plus title text) from
ordinary content".  A line of the form `=^L title =^L` (equal nonempty
runs of `=` on both sides and a nonempty `=`-free title) is a heading
marker of level `L`; every other line — malformed markers included — is
ordinary content. -/
def lineToNode (cs : List Char) : WNode :=
  let lead := cs.takeWhile (· = '=')
  let rest := cs.dropWhile (· = '=')
  let mid := rest.takeWhile (· ≠ '=')
  let trail := rest.dropWhile (· ≠ '=')
  if 1 ≤ lead.length ∧ mid ≠ [] ∧ trail ≠ [] ∧ trail.all (· = '=') ∧
      trail.length = lead.length then
    .heading lead.length (String.mk mid)
  else .text (String.mk (cs ++ ['\n']))

/-- Modelled from the spec: tokenize a raw document line by line. -/
def tokenizePage (raw : String) : List WNode :=
  (splitLines raw.toList).map lineToNode

/-- `PageParserInner` applied to a raw document text. -/
def pageParserChunks (title raw : String) : Except Unit (List Chunk) :=
  ppRun title (tokenizePage raw)

/-! ## The hierarchy evaluator of the line-based parser
(`kgraph/parser.py`, `eval_hierarchy`)

The same stack discipline, but here each stack entry records the heading
text, the line number and the NESTING LEVEL, and popping is by recorded
level (`while hierarchy_array and hierarchy_array[-1][2] >= level`). -/

/-- An entry `(heading_text, lineno, level)` of `hierarchy_array`. -/
structure HEntry where
  heading : String
  line : Nat
  level : Nat
deriving DecidableEq, Repr

/-- A row appended to `headings_data`. -/
structure HeadingRec where
  title : String
  heading : String
  line : Nat
  parent : String
deriving DecidableEq, Repr

/-- The regex `^(=+)([^=]+)=+$` of `eval_hierarchy`: a nonempty leading
run of `=` (its length is the level), a nonempty `=`-free middle (the
heading text, before stripping), and a nonempty trailing run of `=`
reaching the end of the line.  Returns `(level, middle)` on a match. -/
def matchHeadingRe (cs : List Char) : Option (Nat × List Char) :=
  let lead := cs.takeWhile (· = '=')
  let rest := cs.dropWhile (· = '=')
  let mid := rest.takeWhile (· ≠ '=')
  let trail := rest.dropWhile (· ≠ '=')
  if 1 ≤ lead.length ∧ mid ≠ [] ∧ trail ≠ [] ∧ trail.all (· = '=') then
    some (lead.length, mid)
  else none

/-- `while hierarchy_array and hierarchy_array[-1][2] >= level:
hierarchy_array.pop()`: drop entries with level `≥ level` from the end of
the list (modelled as `dropWhile` on the reversed list). -/
def popGE (st : List HEntry) (level : Nat) : List HEntry :=
  (st.reverse.dropWhile (fun e => level ≤ e.level)).reverse

/-- `eval_hierarchy(line, title, hierarchy_array, headings_data, lineno)`:
`none` models a `False` return (not a heading line, no mutation); on a
heading line it returns the updated `hierarchy_array` and
`headings_data`. -/
def eval_hierarchy (line : List Char) (title : String) (st : List HEntry)
    (hd : List HeadingRec) (lineno : Nat) :
    Option (List HEntry × List HeadingRec) :=
  match matchHeadingRe line with
  | none => none
  | some (level, mid) =>
    let heading_text := String.mk (wsTrim mid)
    let st' := popGE st level
    let parent := match st'.getLast? with
      | some e => e.heading
      | none => title
    some (st' ++ [⟨heading_text, lineno, level⟩],
          hd ++ [⟨title, heading_text, lineno, parent⟩])

/-- The hierarchy-stack invariant claimed by the spec: nesting levels are
strictly increasing from bottom to top (hence no level is duplicated). -/
def LevelsSorted (st : List HEntry) : Prop :=
  st.Pairwise (fun a b => a.level < b.level)

/-! ## The paragraph splitter (`kgraph/parser.py`, `split_paragraphs`) -/

/-- Python `chunk.count('[[')`: number of non-overlapping occurrences of
`[[`, scanning left to right. -/
def countLL : List Char → Nat
  | '[' :: '[' :: r => countLL r + 1
  | _ :: r => countLL r
  | [] => 0

/-- Python `chunk.count(']]')`: number of non-overlapping occurrences of
`]]`, scanning left to right. -/
def countRR : List Char → Nat
  | ']' :: ']' :: r => countRR r + 1
  | _ :: r => countRR r
  | [] => 0

/-- Scanner behind `text.find(']]', i)`: the current absolute index is
carried along. -/
def findRRAux : List Char → Nat → Option Nat
  | ']' :: ']' :: _, i => some i
  | _ :: r, i => findRRAux r (i + 1)
  | [], _ => none

/-- Python `text.find(']]', i)`: the least `j ≥ i` with `]]` at position
`j` of `s`, or `none` (Python's `-1`). -/
def findRR (s : List Char) (i : Nat) : Option Nat := findRRAux (s.drop i) i

/-- The whitespace retreat `while end > start and not
text[end - 1].isspace(): end -= 1`, with indices relative to the chunk
start (so `start` is `0`).  The `getD` default is never consulted: the
retreat is only entered with `e ≤ text.length`. -/
def retreat (s : List Char) : Nat → Nat
  | 0 => 0
  | e + 1 => if isSpaceChar (s.getD e ' ') then e + 1 else retreat s e

/-- The word-boundary cut of one iteration of `split_paragraphs`:
`end = min(start + max_len, n)`, then, when `end < n`, the whitespace
retreat, falling back to `min(start + max_len, n)` if the retreat reached
the chunk start.  Indices are relative to the remaining text `s` (the
already-processed prefix is dropped, so Python's `start` appears as `0`
and its `end` as the returned cut). -/
def wordCut (maxLen : Nat) (s : List Char) : Nat :=
  if min maxLen s.length < s.length then
    (if retreat s (min maxLen s.length) = 0 then min maxLen s.length
     else retreat s (min maxLen s.length))
  else min maxLen s.length

/-- The final cut of one iteration of `split_paragraphs`: the
word-boundary cut, extended — when the candidate chunk has more `[[` than
`]]` — to just past the next `]]`, or to the end of the text if there is
none. -/
def splitIterCut (maxLen : Nat) (s : List Char) : Nat :=
  if countLL (s.take (wordCut maxLen s)) > countRR (s.take (wordCut maxLen s)) then
    match findRR s (wordCut maxLen s) with
    | some c => c + 2
    | none => s.length
  else wordCut maxLen s

/-- The `while start < n` loop of `split_paragraphs`, with a fuel
parameter: `none` models non-termination of the Python loop.  Every
iteration that continues advances by `max(end - overlap, end)`
characters (if that is `0` the Python loop never terminates), so fuel
`|text| + 1` dominates the iteration count of every terminating run. -/
def splitLoopFuel (maxLen overlap : Nat) : Nat → List Char → Option (List String)
  | 0, _ => none
  | fuel + 1, s =>
    if s.isEmpty then some []
    else if splitIterCut maxLen s ≥ s.length then
      some [String.mk (wsTrim (s.take (splitIterCut maxLen s)))]
    else
      match splitLoopFuel maxLen overlap fuel
          (s.drop (max (splitIterCut maxLen s - overlap) (splitIterCut maxLen s))) with
      | some rest => some (String.mk (wsTrim (s.take (splitIterCut maxLen s))) :: rest)
      | none => none

/-- `split_paragraphs(text, max_len, overlap)`: strip the text, then run
the splitting loop; `some chunks` is the list of yielded chunks, `none`
models non-termination. -/
def split_paragraphs (text : String) (max_len overlap : Nat) : Option (List String) :=
  splitLoopFuel max_len overlap ((wsTrim text.toList).length + 1) (wsTrim text.toList)

/-! ## Link extraction (`kgraph2/models.py`, `Chunk.get_links`, and
`kgraph/parser.py`, `process_paragraph_line`) -/

/-- Attempt of the regex `\[\[([^\]|]+)(?:\|[^\]]*)?\]\]` to match at the
current position; `cs` is the text after the leading `[[`.  The capture
is the (greedy, nonempty) run of characters other than `]` and `|`; it
must be followed either directly by `]]` or by `|`, a run of non-`]`
characters, and `]]` (the regex backtracking can never succeed in any
other way, since neither run can give back a character usefully).
Returns the capture and the rest of the text after the match. -/
def matchRef (cs : List Char) : Option (List Char × List Char) :=
  if (cs.takeWhile (fun d => !(d == ']' || d == '|'))).isEmpty then none
  else
    match cs.dropWhile (fun d => !(d == ']' || d == '|')) with
    | ']' :: ']' :: after => some (cs.takeWhile (fun d => !(d == ']' || d == '|')), after)
    | '|' :: rem2 =>
      match rem2.dropWhile (fun d => !(d == ']')) with
      | ']' :: ']' :: after => some (cs.takeWhile (fun d => !(d == ']' || d == '|')), after)
      | _ => none
    | _ => none

/-- `re.findall(r'\[\[([^\]|]+)(?:\|[^\]]*)?\]\]', content)`: scan left to
right; on a match record the capture and resume after it, otherwise
advance one character.  Every step discards at least one character, so
fuel `|content| + 1` dominates the step count. -/
def findallRefs : Nat → List Char → List (List Char)
  | 0, _ => []
  | _, [] => []
  | fuel + 1, '[' :: '[' :: cs =>
    (match matchRef cs with
     | some (core, after) => core :: findallRefs fuel after
     | none => findallRefs fuel ('[' :: cs))
  | fuel + 1, _ :: cs => findallRefs fuel cs

/-- `Chunk.get_links`: all regex captures, deduplicated
(`list(set(matches))`; the Python set iteration order is unspecified, so
only the membership and distinctness of the result are meaningful). -/
def Chunk.get_links (c : Chunk) : List String :=
  ((findallRefs (c.content.toList.length + 1) c.content.toList).map String.mk).dedup

/-- `re.findall(r'\[\[([^\]|#]+)', chunk)` of `process_paragraph_line`:
match `[[` followed by a nonempty run of characters other than `]`, `|`,
`#`; no closing bracket is required; scanning resumes after the
capture. -/
def findallOpenRefs : Nat → List Char → List (List Char)
  | 0, _ => []
  | _, [] => []
  | fuel + 1, '[' :: '[' :: cs =>
    (if (cs.takeWhile (fun d => !(d == ']' || d == '|' || d == '#'))).isEmpty then
      findallOpenRefs fuel ('[' :: cs)
    else
      cs.takeWhile (fun d => !(d == ']' || d == '|' || d == '#')) ::
        findallOpenRefs fuel (cs.dropWhile (fun d => !(d == ']' || d == '|' || d == '#'))))
  | fuel + 1, _ :: cs => findallOpenRefs fuel cs

/-- The per-capture post-processing `link.split('|')[0].strip()` of
`process_paragraph_line` (the capture can contain no `|`, so the split
keeps it whole), applied to every capture; the results are appended to
`link_edges` WITHOUT deduplication. -/
def kgraphLinkTargets (chunk : List Char) : List String :=
  (findallOpenRefs (chunk.length + 1) chunk).map (fun l => String.mk (wsTrim l))

/-! ## Identity assignment (`main.py`)

`get_uid` hashes with `hashlib.sha256(...).hexdigest()`; SHA-256 itself
(standard FIPS 180-4, part of the Python standard library, absent from
`src/`) is embedded below over byte lists, with 32-bit words as `Nat`
reduced modulo `2^32`. -/

def M32 : Nat := 4294967296

/-- 32-bit right rotation of `x < 2^32` by `n ≤ 32` bits. -/
def rotr (n x : Nat) : Nat := (x / 2 ^ n + x % 2 ^ n * 2 ^ (32 - n)) % M32

/-- Right shift. -/
def shr (n x : Nat) : Nat := x / 2 ^ n

/-- SHA-256 `Ch(x,y,z)`; `M32 - 1 - x` is the 32-bit complement. -/
def ch (x y z : Nat) : Nat := ((x &&& y) ^^^ ((M32 - 1 - x) &&& z)) % M32

/-- SHA-256 `Maj(x,y,z)`. -/
def maj (x y z : Nat) : Nat := ((x &&& y) ^^^ (x &&& z) ^^^ (y &&& z)) % M32

/-- SHA-256 `Σ0`. -/
def bigSigma0 (x : Nat) : Nat := (rotr 2 x ^^^ rotr 13 x ^^^ rotr 22 x) % M32

/-- SHA-256 `Σ1`. -/
def bigSigma1 (x : Nat) : Nat := (rotr 6 x ^^^ rotr 11 x ^^^ rotr 25 x) % M32

/-- SHA-256 `σ0`. -/
def smallSigma0 (x : Nat) : Nat := (rotr 7 x ^^^ rotr 18 x ^^^ shr 3 x) % M32

/-- SHA-256 `σ1`. -/
def smallSigma1 (x : Nat) : Nat := (rotr 17 x ^^^ rotr 19 x ^^^ shr 10 x) % M32

/-- The first sixty-four primes, from which the SHA-256 constants are
derived. -/
def firstPrimes : List Nat :=
  [2, 3, 5, 7, 11, 13, 17, 19, 23, 29, 31, 37, 41, 43, 47, 53,
   59, 61, 67, 71, 73, 79, 83, 89, 97, 101, 103, 107, 109, 113, 127, 131,
   137, 139, 149, 151, 157, 163, 167, 173, 179, 181, 191, 193, 197, 199, 211, 223,
   227, 229, 233, 239, 241, 251, 257, 263, 269, 271, 277, 281, 283, 293, 307, 311]

/-- Integer cube root by bisection: the largest `k` with `k^3 ≤ n`
(the fuel bounds the bisection depth; 200 exceeds the bit length of
every number used here). -/
def cbrtAux (n : Nat) : Nat → Nat → Nat → Nat
  | 0, lo, _ => lo
  | fuel + 1, lo, hi =>
    if hi ≤ lo + 1 then lo
    else if ((lo + hi) / 2) ^ 3 ≤ n then cbrtAux n fuel ((lo + hi) / 2) hi
    else cbrtAux n fuel lo ((lo + hi) / 2)

/-- Integer cube root. -/
def cbrt (n : Nat) : Nat := cbrtAux n 200 0 (n + 1)

/-- The SHA-256 round constants (FIPS 180-4): the first 32 bits of the
fractional parts of the cube roots of the first sixty-four primes. -/
def shaK : List Nat := firstPrimes.map (fun p => cbrt (p * 2 ^ 96) % M32)

/-- The SHA-256 initial hash value (FIPS 180-4): the first 32 bits of
the fractional parts of the square roots of the first eight primes. -/
def shaH0 : List Nat := (firstPrimes.take 8).map (fun p => Nat.sqrt (p * 2 ^ 64) % M32)

/-- Big-endian byte representation of `v`, `k` bytes wide. -/
def beBytes : Nat → Nat → List Nat
  | 0, _ => []
  | k + 1, v => beBytes k (v / 256) ++ [v % 256]

/-- SHA-256 padding: `0x80`, zeros to 56 mod 64, 8-byte big-endian bit
length. -/
def shaPad (msg : List Nat) : List Nat :=
  msg ++ [128] ++ List.replicate ((64 - (msg.length + 9) % 64) % 64) 0 ++ beBytes 8 (msg.length * 8)

/-- Combine bytes into big-endian 32-bit words. -/
def wordsBE : List Nat → List Nat
  | b0 :: b1 :: b2 :: b3 :: r => (((b0 * 256 + b1) * 256 + b2) * 256 + b3) :: wordsBE r
  | _ => []

/-- Split a word list into blocks of 16 (the fuel, the list length at the
top call, dominates the number of blocks). -/
def chunk16 : Nat → List Nat → List (List Nat)
  | 0, _ => []
  | _, [] => []
  | fuel + 1, l => l.take 16 :: chunk16 fuel (l.drop 16)

/-- Extend a 16-word block to the 64-word message schedule (`k` words are
still to be appended). -/
def extendSchedule : Nat → List Nat → List Nat
  | 0, w => w
  | k + 1, w =>
    extendSchedule k (w ++ [(smallSigma1 (w.getD (w.length - 2) 0) + w.getD (w.length - 7) 0 +
      smallSigma0 (w.getD (w.length - 15) 0) + w.getD (w.length - 16) 0) % M32])

/-- One SHA-256 compression round on the state `[a,b,c,d,e,f,g,h]` with
round constant `k` and schedule word `w`. -/
def compressRound : List Nat → Nat → Nat → List Nat
  | [a, b, c, d, e, f, g, h], k, w =>
    [((h + bigSigma1 e + ch e f g + k + w) % M32 + (bigSigma0 a + maj a b c) % M32) % M32,
     a, b, c, (d + ((h + bigSigma1 e + ch e f g + k + w) % M32)) % M32, e, f, g]
  | st, _, _ => st

/-- SHA-256 compression of one 16-word block into the running hash. -/
def compressBlock (h : List Nat) (block : List Nat) : List Nat :=
  ((shaK.zip (extendSchedule 48 block)).foldl (fun st p => compressRound st p.1 p.2) h).zip h
    |>.map (fun p => (p.1 + p.2) % M32)

/-- SHA-256 of a byte list, as the eight 32-bit words of the digest. -/
def sha256Words (msg : List Nat) : List Nat :=
  (chunk16 ((shaPad msg).length) (wordsBE (shaPad msg))).foldl compressBlock shaH0

/-- A lowercase hexadecimal digit. -/
def hexDigit (n : Nat) : Char := if n < 10 then Char.ofNat (48 + n) else Char.ofNat (87 + n)

/-- Eight lowercase hex digits of a 32-bit word. -/
def wordHex (w : Nat) : List Char :=
  [hexDigit (w / 16 ^ 7 % 16), hexDigit (w / 16 ^ 6 % 16), hexDigit (w / 16 ^ 5 % 16),
   hexDigit (w / 16 ^ 4 % 16), hexDigit (w / 16 ^ 3 % 16), hexDigit (w / 16 ^ 2 % 16),
   hexDigit (w / 16 % 16), hexDigit (w % 16)]

/-- `hashlib.sha256(bytes).hexdigest()`. -/
def sha256hex (msg : List Nat) : String :=
  String.mk ((sha256Words msg).map wordHex).flatten

/-- UTF-8 encoding of one character. -/
def utf8Char (c : Char) : List Nat :=
  if c.toNat < 128 then [c.toNat]
  else if c.toNat < 2048 then [192 + c.toNat / 64, 128 + c.toNat % 64]
  else if c.toNat < 65536 then
    [224 + c.toNat / 4096, 128 + c.toNat / 64 % 64, 128 + c.toNat % 64]
  else
    [240 + c.toNat / 262144, 128 + c.toNat / 4096 % 64, 128 + c.toNat / 64 % 64,
     128 + c.toNat % 64]

/-- Python `content.encode('utf-8')`. -/
def utf8Bytes (s : String) : List Nat := (s.toList.map utf8Char).flatten

/-- `get_uid(content)` from `main.py`: SHA-256 hex digest of the UTF-8
encoded content. -/
def get_uid (content : String) : String := sha256hex (utf8Bytes content)

/-- `get_heading_uid(page_title, heading_title)` from `main.py`. -/
def get_heading_uid (page_title heading_title : String) : String :=
  page_title ++ "#" ++ heading_title

/-- Python `str.strip('=')`: remove `=` from both ends. -/
def stripEqSigns (s : String) : String :=
  String.mk (((s.toList.dropWhile (· = '=')).reverse.dropWhile (· = '=')).reverse)

/-- The paragraph-chunk uid of the `main.py` ingestion loop:
`get_uid(f"{page.title}:{chunk.index}:{chunk.content[:50]}")`. -/
def paragraphChunkUid (pageTitle : String) (index : Nat) (content : String) : String :=
  get_uid (pageTitle ++ ":" ++ toString index ++ ":" ++ String.mk (content.toList.take 50))

/-- The heading-chunk uid of the `main.py` ingestion loop:
`get_heading_uid(page.title, chunk.content.strip("=").strip())`. -/
def headingChunkUid (pageTitle : String) (content : String) : String :=
  get_heading_uid pageTitle (pyStrip (stripEqSigns content))

/-- The uid assigned to a chunk by the `main.py` ingestion loop. -/
def chunkUid (pageTitle : String) (c : Chunk) : String :=
  match c.type with
  | .HEADING => headingChunkUid pageTitle c.content
  | _ => paragraphChunkUid pageTitle c.index c.content

/-! ## The buffered graph writer (`kgraph2/client.py`)

`_flush_nodes_unlocked` and `_flush_links_unlocked` issue parameterized
Cypher batches against the external Neo4j store.  The store state and
the semantics of `MERGE` / `MATCH` (modelled from the spec §6: the store
supports merge-or-create of a vertex by unique key with property
overwrite, match of a vertex by key, and merge-or-create of an edge by
endpoint pair) are embedded as a `Graph` value; the two Cypher templates
are taken from the source. -/

/-- A property value of a graph node. -/
inductive PropVal
  | s (v : String)
  | n (v : Nat)
  | vec (v : List Int)
deriving DecidableEq, Repr

/-- `Node` dataclass from `kgraph2/models.py` (properties as an
association list). -/
structure Node where
  uid : String
  type : NodeType
  properties : List (String × PropVal)
deriving DecidableEq, Repr

/-- `Link` dataclass from `kgraph2/models.py`. -/
structure Link where
  source_uid : String
  target_uid : String
deriving DecidableEq, Repr

/-- The graph-store state: vertices keyed by uid (with the label fixed at
creation and a property map), and the list of `LINK` edges. -/
structure Graph where
  verts : List (String × NodeType × List (String × PropVal))
  edges : List (String × String)
deriving DecidableEq, Repr

/-- The uids present in the store. -/
def Graph.uids (g : Graph) : List String := g.verts.map (·.1)

/-- One row of the node-flush Cypher of `_flush_nodes_unlocked`:
`MERGE (n:Resource {uid: row.uid}) ON CREATE SET n:<label>, n += row
ON MATCH SET n.<k> = row.<k>, ...` — if the uid exists, overwrite the
row's properties (modelled as replacing the stored property map: the
Cypher sets each row key individually, which coincides whenever the
stored vertex carries exactly the row's keys; the label is untouched on
match); otherwise create the vertex with label and properties. -/
def upsertVerts (vs : List (String × NodeType × List (String × PropVal))) (n : Node) :
    List (String × NodeType × List (String × PropVal)) :=
  if (vs.map (·.1)).contains n.uid then
    vs.map (fun v => if v.1 = n.uid then (v.1, v.2.1, n.properties) else v)
  else vs ++ [(n.uid, n.type, n.properties)]

/-- The same row, lifted to the store state (only the vertices are
touched). -/
def upsertNode (g : Graph) (n : Node) : Graph := { g with verts := upsertVerts g.verts n }

/-- One row of the link-flush Cypher of `_flush_links_unlocked`:
`MATCH (a:Resource {uid: row.source}) MATCH (b:Resource {uid: row.target})
MERGE (a)-[:LINK]->(b)` — the edge is merged ONLY when both endpoints
already exist; otherwise the row matches nothing and is silently
dropped (no stub vertices are created). -/
def applyLinkRow (g : Graph) (l : Link) : Graph :=
  if g.uids.contains l.source_uid ∧ g.uids.contains l.target_uid then
    { g with edges :=
        if g.edges.contains (l.source_uid, l.target_uid) then g.edges
        else g.edges ++ [(l.source_uid, l.target_uid)] }
  else g

/-- A node batch applied row by row (`UNWIND $batch AS row`). -/
def applyNodeBatch (g : Graph) (ns : List Node) : Graph := ns.foldl upsertNode g

/-- A link batch applied row by row (`UNWIND $batch AS row`). -/
def applyLinkBatch (g : Graph) (ls : List Link) : Graph := ls.foldl applyLinkRow g

/-- `_flush_nodes_unlocked` groups the buffered nodes by kind
(`by_type`, iterating `NodeType` in declaration order) and submits one
batch per kind. -/
def flushNodes (g : Graph) (ns : List Node) : Graph :=
  applyNodeBatch
    (applyNodeBatch
      (applyNodeBatch g (ns.filter (fun n => n.type = .TITLE)))
      (ns.filter (fun n => n.type = .HEADING)))
    (ns.filter (fun n => n.type = .PARAGRAPH))

/-! ## The embedding batch flush (`main.py`) -/

/-- The level of the Python `logging` call recording an event. -/
inductive LogLevel
  | info
  | warning
  | error
deriving DecidableEq, Repr

/-- `node.properties["embedding"] = vec`. -/
def setEmbedding (n : Node) (v : List Int) : Node :=
  { n with properties :=
      if (n.properties.map (·.1)).contains "embedding" then
        n.properties.map (fun p => if p.1 = "embedding" then ("embedding", PropVal.vec v) else p)
      else n.properties ++ [("embedding", PropVal.vec v)] }

/-- The embedding batch flush of the `main.py` page loop: call the
provider on all buffered contents, attach each returned vector and write
each node only after its embedding is attached, then clear the buffer.
An exception from the provider propagates to the per-page
`except Exception` handler, which calls `logging.error` and moves on to
the next page: in that case NO node of the batch is written, and
`embed_buffer.clear()` is never reached, so the buffer is retained.
Returns (nodes written, remaining buffer, logged failure). -/
def flushEmbedBuffer (embed : List String → Except String (List (List Int)))
    (buffer : List (Node × String)) :
    List Node × List (Node × String) × Option (LogLevel × String) :=
  match embed (buffer.map (·.2)) with
  | .error e => ([], buffer, some (.error, e))
  | .ok vecs => (((buffer.map (·.1)).zip vecs).map (fun p => setEmbedding p.1 p.2), [], none)

/-! ## Theorems -/

/-- On a list whose levels strictly decrease (a reversed hierarchy stack),
dropping the leading entries of level `≥ lv` removes exactly the entries
of level `≥ lv`. -/
theorem dropWhile_levels_eq_filter (lv : Nat) :
    ∀ r : List HEntry, r.Pairwise (fun a b => b.level < a.level) →
      r.dropWhile (fun e => decide (lv ≤ e.level)) =
        r.filter (fun e => decide (e.level < lv))
  | [], _ => rfl
  | e :: r, h => by
    rcases List.pairwise_cons.mp h with ⟨hhead, htail⟩
    by_cases hle : lv ≤ e.level
    · have hd := decide_eq_true hle
      have hf := decide_eq_false (Nat.not_lt.mpr hle)
      simp only [List.dropWhile_cons, List.filter_cons, hd, hf, if_true, if_false,
        Bool.false_eq_true, ite_false, ite_true]
      exact dropWhile_levels_eq_filter lv r htail
    · have hd := decide_eq_false hle
      have hf := decide_eq_true (Nat.not_le.mp hle)
      simp only [List.dropWhile_cons, List.filter_cons, hd, hf, if_true, if_false,
        Bool.false_eq_true, ite_false, ite_true]
      rw [List.filter_eq_self.mpr]
      intro a ha
      exact decide_eq_true (Nat.lt_trans (hhead a ha) (Nat.not_le.mp hle))

/-- On a stack satisfying the claimed invariant, the pop loop of
`eval_hierarchy` removes exactly the entries whose nesting level is
`≥ lv`. -/
theorem popGE_eq_filter (st : List HEntry) (lv : Nat) (hs : LevelsSorted st) :
    popGE st lv = st.filter (fun e => decide (e.level < lv)) := by
  unfold popGE
  rw [dropWhile_levels_eq_filter lv st.reverse (List.pairwise_reverse.mpr hs),
    List.filter_reverse, List.reverse_reverse]

/-- Appending a new entry of level `lv` to the popped stack preserves the
strictly-increasing-levels invariant. -/
theorem levelsSorted_push (st : List HEntry) (lv : Nat) (x : HEntry)
    (hs : LevelsSorted st) (hx : x.level = lv) :
    LevelsSorted (st.filter (fun e => decide (e.level < lv)) ++ [x]) := by
  rw [LevelsSorted, List.pairwise_append]
  refine ⟨hs.sublist (List.filter_sublist _), List.pairwise_singleton _ _, ?_⟩
  intro a ha b hb
  rcases List.mem_singleton.mp hb with rfl
  have halt : a.level < lv := of_decide_eq_true (List.mem_filter.mp ha).2
  omega

/-- The pop loop of `PageParserInner` on the reversed stack: it removes
elements from the front until fewer than `lv` remain. -/
theorem popFromTop_eq (lv : Nat) (h1 : 1 ≤ lv) :
    ∀ r : List String, popFromTop lv r = .ok (r.drop (r.length + 1 - lv))
  | [] => by
    rw [popFromTop, if_neg (by simp; omega)]
    simp
  | a :: t => by
    rw [popFromTop]
    by_cases hl : (a :: t).length ≥ lv
    · rw [if_pos hl, popFromTop_eq lv h1 t]
      have harith : (a :: t).length + 1 - lv = (t.length + 1 - lv) + 1 := by
        simp at hl ⊢; omega
      rw [harith, List.drop_succ_cons]
    · rw [if_neg hl]
      have harith : (a :: t).length + 1 - lv = 0 := by
        simp at hl ⊢; omega
      rw [harith, List.drop_zero]

/-- The pop loop of `PageParserInner` pops entries by STACK LENGTH, not by
nesting level: for `lv ≥ 1` it always succeeds and keeps exactly the
bottom `lv - 1` entries of the stack. -/
theorem popWhileLen_eq_take (stack : List String) (lv : Nat) (h1 : 1 ≤ lv) :
    popWhileLen stack lv = .ok (stack.take (lv - 1)) := by
  unfold popWhileLen
  rw [popFromTop_eq lv h1]
  show Except.ok ((stack.reverse.drop (stack.reverse.length + 1 - lv)).reverse) = _
  rw [← List.rdrop_eq_reverse_drop_reverse]
  unfold List.rdrop
  congr 1
  by_cases h : lv ≤ stack.length
  · congr 1
    simp
    omega
  · have h0 : stack.reverse.length + 1 - lv = 0 := by simp; omega
    rw [h0, Nat.sub_zero, List.take_length, List.take_of_length_le (by omega)]

/-- On a heading node, `PageParserInner` first flushes the pending
paragraph as a Paragraph chunk owned by the CURRENT stack top, then pops
by stack length (keeping the bottom `lv - 1` entries), emits the Heading
chunk owned by the resulting stack top, and pushes the stripped heading
title. -/
theorem ppStep_heading (st : PPState) (lv : Nat) (ht : String)
    (h2 : 2 ≤ lv) (hne : st.hierarchy_stack ≠ []) (hblk : st.current_block ≠ []) :
    ∃ powner howner,
      st.hierarchy_stack.getLast? = some powner ∧
      (st.hierarchy_stack.take (lv - 1)).getLast? = some howner ∧
      ppStep st (.heading lv ht) = .ok
        { current_block := []
          chunk_index := st.chunk_index + 2
          hierarchy_stack := st.hierarchy_stack.take (lv - 1) ++ [pyStrip ht]
          emitted := st.emitted ++
            [⟨pyStrip (String.mk (st.current_block.map String.toList).flatten),
              st.chunk_index, .PARAGRAPH, powner⟩,
             ⟨pyStrip (headingStr lv ht), st.chunk_index + 1, .HEADING, howner⟩] } := by
  have htake : st.hierarchy_stack.take (lv - 1) ≠ [] := by
    rw [Ne, List.take_eq_nil_iff]
    push_neg
    exact ⟨by omega, hne⟩
  obtain ⟨powner, hp⟩ := Option.isSome_iff_exists.mp
    (List.getLast?_isSome.mpr hne)
  obtain ⟨howner, hq⟩ := Option.isSome_iff_exists.mp
    (List.getLast?_isSome.mpr htake)
  refine ⟨powner, howner, hp, hq, ?_⟩
  have hblkB : ¬ st.current_block.isEmpty = true := by
    simpa [List.isEmpty_iff] using hblk
  simp only [ppStep, flushBlock, if_neg hblkB, stackTop, hp,
    popWhileLen_eq_take _ _ (by omega : 1 ≤ lv), hq, Bind.bind, Except.bind]
  simp [Nat.add_assoc, List.append_assoc]

/-- Claim C1, counterexample.  The claim states that on a heading of
level L the parser pops exactly the stack entries whose nesting level is
≥ L (so levels stay strictly increasing).  `PageParserInner` instead pops
by stack LENGTH: on the document `==== B ====` / `=== C ===` the level-3
heading C does not pop the level-4 heading B (the stack has length 2 < 3),
so C's emitted owner is "B" — the claim requires owner "T".  By contrast
`eval_hierarchy` (which records levels) does pop B and assigns parent
"T". -/
theorem C1_counterexample :
    ppRun "T" [.heading 4 " B ", .heading 3 " C "] =
      .ok [⟨"==== B ====", 0, .HEADING, "T"⟩, ⟨"=== C ===", 1, .HEADING, "B"⟩] ∧
    eval_hierarchy "=== C ===".toList "T" [⟨"B", 0, 4⟩] [] 1 =
      some ([⟨"C", 1, 3⟩], [⟨"T", "C", 1, "T"⟩]) ∧
    ("B" : String) ≠ "T" :=
  ⟨rfl, rfl, by decide⟩

/-- Claim C1, amended.  On a heading of level L the parser first flushes
any pending paragraph as a Paragraph chunk owned by the current stack
top, then pops, emits the Heading chunk owned by the resulting stack top
and pushes the new heading.  In `kgraph`'s `eval_hierarchy` the pop
removes exactly the entries of nesting level ≥ L and the stack's levels
remain strictly increasing (no duplicates).  In `kgraph2`'s
`PageParserInner` the pop is by stack LENGTH (keep the bottom `L - 1`
entries), which coincides with the level rule only when every open
heading's level equals its stack depth. -/
theorem C1_theorem :
    (∀ (line : List Char) (title : String) (st : List HEntry) (hd : List HeadingRec)
        (ln : Nat) (st' : List HEntry) (hd' : List HeadingRec),
        LevelsSorted st →
        eval_hierarchy line title st hd ln = some (st', hd') →
        ∃ lv mid, matchHeadingRe line = some (lv, mid) ∧
          st' = st.filter (fun e => decide (e.level < lv)) ++
            [⟨String.mk (wsTrim mid), ln, lv⟩] ∧
          LevelsSorted st') ∧
    (∀ (st : PPState) (lv : Nat) (ht : String), 2 ≤ lv →
        st.hierarchy_stack ≠ [] → st.current_block ≠ [] →
        ∃ powner howner,
          st.hierarchy_stack.getLast? = some powner ∧
          (st.hierarchy_stack.take (lv - 1)).getLast? = some howner ∧
          ppStep st (.heading lv ht) = .ok
            { current_block := []
              chunk_index := st.chunk_index + 2
              hierarchy_stack := st.hierarchy_stack.take (lv - 1) ++ [pyStrip ht]
              emitted := st.emitted ++
                [⟨pyStrip (String.mk (st.current_block.map String.toList).flatten),
                  st.chunk_index, .PARAGRAPH, powner⟩,
                 ⟨pyStrip (headingStr lv ht), st.chunk_index + 1, .HEADING, howner⟩] }) := by
  constructor
  · intro line title st hd ln st' hd' hs heq
    unfold eval_hierarchy at heq
    cases hm : matchHeadingRe line with
    | none => rw [hm] at heq; exact absurd heq (by simp)
    | some p =>
      obtain ⟨lv, mid⟩ := p
      rw [hm] at heq
      simp only [Option.some.injEq, Prod.mk.injEq] at heq
      obtain ⟨hst, hhd⟩ := heq
      refine ⟨lv, mid, rfl, ?_, ?_⟩
      · rw [← hst, popGE_eq_filter st lv hs]
      · rw [← hst, popGE_eq_filter st lv hs]
        exact levelsSorted_push st lv _ hs rfl
  · exact ppStep_heading

/-- Witness for C1_theorem: both parts applied at concrete inputs. -/
theorem C1_witness :
    (∃ lv mid, matchHeadingRe "== A ==".toList = some (lv, mid) ∧
      ([⟨"A", 0, 2⟩] : List HEntry) =
        List.filter (fun e => decide (e.level < lv)) [] ++
          [⟨String.mk (wsTrim mid), 0, lv⟩] ∧
      LevelsSorted [⟨"A", 0, 2⟩]) ∧
    (∃ powner howner,
      (["T", "H"] : List String).getLast? = some powner ∧
      ((["T", "H"] : List String).take 1).getLast? = some howner ∧
      ppStep ⟨["x"], 5, ["T", "H"], []⟩ (.heading 2 " N ") = .ok
        { current_block := []
          chunk_index := 7
          hierarchy_stack := (["T", "H"] : List String).take 1 ++ [pyStrip " N "]
          emitted := [] ++
            [⟨pyStrip (String.mk ((["x"] : List String).map String.toList).flatten),
              5, .PARAGRAPH, powner⟩,
             ⟨pyStrip (headingStr 2 " N "), 6, .HEADING, howner⟩] }) :=
  ⟨C1_theorem.1 "== A ==".toList "T" [] [] 0 [⟨"A", 0, 2⟩] [⟨"T", "A", 0, "T"⟩]
      (by simp [LevelsSorted]) rfl,
   C1_theorem.2 ⟨["x"], 5, ["T", "H"], []⟩ 2 " N " (by omega) (by decide) (by decide)⟩

/-- If the hierarchy stack is nonempty, flushing the pending paragraph
never raises and leaves the stack unchanged. -/
theorem flushBlock_ok (st : PPState) (h : st.hierarchy_stack ≠ []) :
    ∃ st₂, flushBlock st = .ok st₂ ∧ st₂.hierarchy_stack = st.hierarchy_stack := by
  unfold flushBlock
  by_cases hb : st.current_block.isEmpty
  · exact ⟨st, by rw [if_pos hb], rfl⟩
  · obtain ⟨t, ht⟩ := Option.isSome_iff_exists.mp (List.getLast?_isSome.mpr h)
    refine ⟨{ st with
              emitted := st.emitted ++
                [⟨pyStrip (String.mk (st.current_block.map String.toList).flatten),
                  st.chunk_index, .PARAGRAPH, t⟩],
              chunk_index := st.chunk_index + 1,
              current_block := [] }, ?_, rfl⟩
    rw [if_neg hb]
    simp only [stackTop, ht, Bind.bind, Except.bind]

/-- One parser step never raises and keeps the stack nonempty, provided
the stack is nonempty and any heading seen has level ≥ 2. -/
theorem ppStep_ok (st : PPState) (n : WNode) (h : st.hierarchy_stack ≠ [])
    (hn : ∀ lv t, n = .heading lv t → 2 ≤ lv) :
    ∃ st₂, ppStep st n = .ok st₂ ∧ st₂.hierarchy_stack ≠ [] := by
  cases n with
  | text s =>
    by_cases hc : pyStrip s ≠ "" ∨ ¬ st.current_block.isEmpty
    · refine ⟨{ st with current_block := st.current_block ++ [s] }, ?_, h⟩
      simp only [ppStep]; rw [if_pos hc]
    · exact ⟨st, by simp only [ppStep]; rw [if_neg hc], h⟩
  | heading lv t =>
    have hlv : 2 ≤ lv := hn lv t rfl
    obtain ⟨st₁, hst₁, hstack₁⟩ := flushBlock_ok st h
    have htake : st₁.hierarchy_stack.take (lv - 1) ≠ [] := by
      rw [hstack₁, Ne, List.take_eq_nil_iff]
      push_neg
      exact ⟨by omega, h⟩
    obtain ⟨tp, htp⟩ := Option.isSome_iff_exists.mp (List.getLast?_isSome.mpr htake)
    refine ⟨{ st₁ with
              emitted := st₁.emitted ++
                [⟨pyStrip (headingStr lv t), st₁.chunk_index, .HEADING, tp⟩],
              chunk_index := st₁.chunk_index + 1,
              hierarchy_stack := st₁.hierarchy_stack.take (lv - 1) ++ [pyStrip t] },
      ?_, by simp⟩
    simp only [ppStep, hst₁, popWhileLen_eq_take _ _ (by omega : 1 ≤ lv),
      stackTop, htp, Bind.bind, Except.bind]

/-- Folding the parser over a node list whose headings all have level ≥ 2
never raises, starting from a nonempty stack. -/
theorem foldlM_ppStep_ok :
    ∀ (nodes : List WNode) (st : PPState), st.hierarchy_stack ≠ [] →
      (∀ lv t, WNode.heading lv t ∈ nodes → 2 ≤ lv) →
      ∃ st₂, nodes.foldlM ppStep st = .ok st₂ ∧ st₂.hierarchy_stack ≠ []
  | [], st, h, _ => ⟨st, rfl, h⟩
  | n :: nodes, st, h, hn => by
    obtain ⟨st₁, hst₁, h₁⟩ := ppStep_ok st n h
      (fun lv t hnt => hn lv t (hnt ▸ List.mem_cons_self n nodes))
    obtain ⟨st₂, hst₂, h₂⟩ := foldlM_ppStep_ok nodes st₁ h₁
      (fun lv t hm => hn lv t (List.mem_cons_of_mem n hm))
    refine ⟨st₂, ?_, h₂⟩
    rw [List.foldlM_cons, hst₁]
    simpa [Bind.bind, Except.bind] using hst₂

/-- Claim C4, amended.  The parser's chunk iteration runs to completion
without raising for every node stream whose headings all have level ≥ 2
(which includes empty documents and malformed heading markers, since
those are tokenized as ordinary content).  A level-1 heading such as
`= X =` is the exception: it empties the hierarchy stack, and the
subsequent `hierarchy_stack[-1]` raises `IndexError`, aborting the
document (the error is then caught by the per-page handler in
`main.py`). -/
theorem C4_theorem (title : String) (nodes : List WNode)
    (hn : ∀ lv t, WNode.heading lv t ∈ nodes → 2 ≤ lv) :
    ∃ cs, ppRun title nodes = .ok cs := by
  obtain ⟨st₂, hst₂, h₂⟩ := foldlM_ppStep_ok nodes (ppInit title) (by simp [ppInit]) hn
  obtain ⟨st₃, hst₃, _⟩ := flushBlock_ok st₂ h₂
  refine ⟨st₃.emitted, ?_⟩
  unfold ppRun
  rw [hst₂]
  simpa [Bind.bind, Except.bind] using congrArg (Except.map PPState.emitted) hst₃

/-- Witness for C4_theorem at a concrete document. -/
theorem C4_witness :
    ∃ cs, ppRun "T" [WNode.text "hello", WNode.heading 2 " A "] = .ok cs :=
  C4_theorem "T" [WNode.text "hello", WNode.heading 2 " A "]
    (by intro lv t h; simp at h; omega)

/-- Claim C4, counterexample: the claim says iteration runs to completion
for a heading of ANY level, e.g. level 1, but on `= X =` (a valid level-1
MediaWiki heading) `PageParserInner` pops the whole stack and
`hierarchy_stack[-1]` raises `IndexError`. -/
theorem C4_counterexample : pageParserChunks "T" "= X =" = .error () := rfl

/-- Claim C5: parsing the given document with title "Main" emits exactly
7 chunks whose owners are, in order, Main, Main, H1, H1, H1.1, Main,
H2. -/
theorem C5_theorem :
    (pageParserChunks "Main" "Intro.\n== H1 ==\nA\n=== H1.1 ===\nB\n== H2 ==\nC\n").map
        (List.map Chunk.hierarchy_owner) =
      .ok ["Main", "Main", "H1", "H1", "H1.1", "Main", "H2"] ∧
    (pageParserChunks "Main" "Intro.\n== H1 ==\nA\n=== H1.1 ===\nB\n== H2 ==\nC\n").map
        List.length = .ok 7 :=
  ⟨rfl, rfl⟩

/-- The word-boundary cut is at least 1 on nonempty text when
`max_len ≥ 1`. -/
theorem wordCut_pos (maxLen : Nat) (s : List Char)
    (hn : 1 ≤ s.length) (hm : 1 ≤ maxLen) : 1 ≤ wordCut maxLen s := by
  unfold wordCut
  split
  · split <;> omega
  · omega

/-- On a nonempty remaining text with `max_len ≥ 1`, every iteration of
the splitting loop cuts at least one character. -/
theorem splitIterCut_pos (maxLen : Nat) (s : List Char)
    (hn : 1 ≤ s.length) (hm : 1 ≤ maxLen) : 1 ≤ splitIterCut maxLen s := by
  have h1 := wordCut_pos maxLen s hn hm
  unfold splitIterCut
  split
  · split <;> omega
  · omega

/-- With `max_len ≥ 1` the splitting loop terminates within its fuel. -/
theorem splitLoopFuel_some (maxLen overlap : Nat) (hm : 1 ≤ maxLen) :
    ∀ (fuel : Nat) (s : List Char), s.length < fuel →
      ∃ l, splitLoopFuel maxLen overlap fuel s = some l := by
  intro fuel
  induction fuel with
  | zero => intro s h; omega
  | succ fuel IH =>
    intro s h
    by_cases hs : s.isEmpty
    · exact ⟨[], by rw [splitLoopFuel, if_pos hs]⟩
    · have hn : 1 ≤ s.length := by
        cases s with
        | nil => simp at hs
        | cons a t => simp
      by_cases hend : splitIterCut maxLen s ≥ s.length
      · exact ⟨_, by rw [splitLoopFuel, if_neg hs, if_pos hend]⟩
      · have hc := splitIterCut_pos maxLen s hn hm
        have hdrop :
            (s.drop (max (splitIterCut maxLen s - overlap) (splitIterCut maxLen s))).length
              < fuel := by
          rw [List.length_drop]
          omega
        obtain ⟨l, hl⟩ := IH _ hdrop
        refine ⟨String.mk (wsTrim (s.take (splitIterCut maxLen s))) :: l, ?_⟩
        rw [splitLoopFuel, if_neg hs, if_neg hend, hl]

/-- Claim C10: for every finite input text and every configuration with
`max_len ≥ 1`, paragraph splitting terminates with a finite chunk list
(each iteration advances the cursor by at least one character). -/
theorem C10_theorem (text : String) (max_len overlap : Nat) (hm : 1 ≤ max_len) :
    ∃ l, split_paragraphs text max_len overlap = some l :=
  splitLoopFuel_some max_len overlap hm _ _ (Nat.lt_succ_self _)

/-- Witness for C10_theorem at a concrete input. -/
theorem C10_witness :
    (1 : Nat) ≤ 3 ∧ ∃ l, split_paragraphs "hello world" 3 1 = some l :=
  ⟨by omega, C10_theorem "hello world" 3 1 (by omega)⟩

/-- Claim C3 concerns the overlap behaviour of `split_paragraphs`.  The
code computes `start = max(end - overlap, end)`, which always equals
`end`: the new chunk starts exactly at the previous chunk's end and the
`overlap` parameter has no effect.  On `"abcdef"` with `max_len = 3`,
`overlap = 2` the code yields `["abc", "def"]` (no overlap); the claimed
behaviour would make the second chunk start 2 characters before the
first chunk's end, and the claimed round-trip (dropping each subsequent
chunk's leading 2 characters) would require the second chunk to be
`"cdef"`. -/
theorem C3_theorem :
    split_paragraphs "abcdef" 3 2 = some ["abc", "def"] ∧
    ¬ ("abc" ++ "f" = "abcdef") :=
  ⟨rfl, by decide⟩

/-- Claim C8 asserts every emitted chunk balances `[[` against `]]` for
balanced input.  The extension only fires when a chunk has MORE `[[`
than `]]` and a candidate cut can fall between the two brackets of a
`[[`: on the balanced, non-nested input `"ab[[cd]]"` with `max_len = 3`
the chunks are `["ab[", "[cd", "]]"]`, whose last chunk has no `[[` but
one `]]`. -/
theorem C8_theorem :
    countLL "ab[[cd]]".toList = countRR "ab[[cd]]".toList ∧
    split_paragraphs "ab[[cd]]" 3 50 = some ["ab[", "[cd", "]]"] ∧
    ¬ countLL "]]".toList = countRR "]]".toList :=
  ⟨rfl, rfl, by decide⟩

/-- Claim C7, counterexample: the claim says each extracted target is
trimmed, but `Chunk.get_links` performs no trimming: on `[[ X ]]` it
returns the untrimmed `" X "`, not `"X"`. -/
theorem C7_counterexample :
    (Chunk.mk "[[ X ]]" 0 .PARAGRAPH "T").get_links = [" X "] ∧
    pyStrip " X " = "X" ∧
    ("X" : String) ∉ (Chunk.mk "[[ X ]]" 0 .PARAGRAPH "T").get_links :=
  ⟨rfl, rfl, by decide⟩

/-- Claim C7, amended.  `Chunk.get_links` returns the targets of the
`[[target]]` / `[[target|display]]` references of the chunk content,
deduplicated per chunk but NOT trimmed (trimming is performed only by
the kgraph parser's `process_paragraph_line`, which conversely does not
deduplicate).  On the concrete example both extractors yield exactly the
two targets World and Python. -/
theorem C7_theorem :
    (Chunk.mk "Hello [[World]] and [[Python|Language]]." 0 .PARAGRAPH "T").get_links.toFinset
      = {"World", "Python"} ∧
    (Chunk.mk "Hello [[World]] and [[Python|Language]]." 0 .PARAGRAPH "T").get_links.length
      = 2 ∧
    (∀ c : Chunk, c.get_links.Nodup) ∧
    kgraphLinkTargets "Hello [[World]] and [[Python|Language]].".toList
      = ["World", "Python"] ∧
    kgraphLinkTargets "[[ X ]]".toList = ["X"] ∧
    kgraphLinkTargets "See [[A]] and [[A]].".toList = ["A", "A"] :=
  ⟨by decide, rfl, fun c => List.nodup_dedup _, rfl, rfl, rfl⟩

/-- Claim C6: parsing the same text twice yields identical chunk
sequences and uids — parsing and uid assignment are pure functions of
their inputs, with no process- or run-dependent state; the paragraph uid
depends only on (title, index, first 50 characters of the content) and
the heading uid only on (title, stripped heading text). -/
theorem C6_theorem :
    (∀ (title : String) (nodes : List WNode),
      (ppRun title nodes).map (List.map (fun c => (chunkUid title c, c))) =
        (ppRun title nodes).map (List.map (fun c => (chunkUid title c, c)))) ∧
    (∀ (t : String) (i : Nat) (c c' : String),
      c.toList.take 50 = c'.toList.take 50 →
      paragraphChunkUid t i c = paragraphChunkUid t i c') ∧
    (∀ (t c c' : String),
      pyStrip (stripEqSigns c) = pyStrip (stripEqSigns c') →
      headingChunkUid t c = headingChunkUid t c') := by
  refine ⟨fun _ _ => rfl, fun t i c c' h => ?_, fun t c c' h => ?_⟩
  · unfold paragraphChunkUid
    rw [h]
  · unfold headingChunkUid
    rw [h]

/-- Witness for C6_theorem: two contents agreeing on their first 50
characters get the same paragraph uid; two headings with the same
stripped text get the same heading uid. -/
theorem C6_witness :
    ("AAAAAAAAAAAAAAAAAAAAAAAAAAAAAAAAAAAAAAAAAAAAAAAAAA1" : String).toList.take 50 =
      ("AAAAAAAAAAAAAAAAAAAAAAAAAAAAAAAAAAAAAAAAAAAAAAAAAA2" : String).toList.take 50 ∧
    paragraphChunkUid "T" 3 "AAAAAAAAAAAAAAAAAAAAAAAAAAAAAAAAAAAAAAAAAAAAAAAAAA1" =
      paragraphChunkUid "T" 3 "AAAAAAAAAAAAAAAAAAAAAAAAAAAAAAAAAAAAAAAAAAAAAAAAAA2" ∧
    pyStrip (stripEqSigns "== H ==") = pyStrip (stripEqSigns "==H==") ∧
    headingChunkUid "T" "== H ==" = headingChunkUid "T" "==H==" :=
  ⟨by decide, C6_theorem.2.1 "T" 3 _ _ (by decide), rfl,
   C6_theorem.2.2 "T" _ _ (by decide)⟩

/-- A link row never changes the vertices. -/
theorem applyLinkRow_verts (g : Graph) (l : Link) :
    (applyLinkRow g l).verts = g.verts := by
  unfold applyLinkRow
  split <;> rfl

/-- A link batch never changes the vertices. -/
theorem applyLinkBatch_verts (g : Graph) (ls : List Link) :
    (applyLinkBatch g ls).verts = g.verts := by
  induction ls generalizing g with
  | nil => rfl
  | cons l ls IH =>
    show (applyLinkBatch (applyLinkRow g l) ls).verts = g.verts
    rw [IH, applyLinkRow_verts]

/-- An upsert never changes the edges. -/
theorem upsertNode_edges (g : Graph) (n : Node) :
    (upsertNode g n).edges = g.edges := rfl

/-- The keys of the vertex list after an upsert: unchanged when the uid
exists, extended by the new uid otherwise. -/
theorem upsertVerts_keys (vs : List (String × NodeType × List (String × PropVal))) (n : Node) :
    (upsertVerts vs n).map (·.1) =
      if (vs.map (·.1)).contains n.uid then vs.map (·.1) else vs.map (·.1) ++ [n.uid] := by
  unfold upsertVerts
  by_cases h : (vs.map (·.1)).contains n.uid
  · rw [if_pos h, if_pos h, List.map_map]
    apply List.map_congr_left
    intro v _
    by_cases hv1 : v.1 = n.uid <;> simp [hv1]
  · rw [if_neg h, if_neg h]
    simp

/-- `contains` is monotone under appending on the right. -/
theorem contains_append_right {α} [BEq α] (l₁ l₂ : List α) (a : α)
    (h : l₁.contains a = true) : (l₁ ++ l₂).contains a = true := by
  simp only [List.contains_eq_any_beq, List.any_append] at h ⊢
  rw [h]
  rfl

/-- Upserting preserves the presence of any uid. -/
theorem mem_uids_upsertNode (g : Graph) (n : Node) (u : String)
    (h : g.uids.contains u = true) : (upsertNode g n).uids.contains u = true := by
  show ((upsertVerts g.verts n).map (·.1)).contains u = true
  rw [upsertVerts_keys]
  split
  · exact h
  · exact contains_append_right _ _ _ h

/-- A node batch preserves the presence of any uid. -/
theorem mem_uids_applyNodeBatch (g : Graph) (ns : List Node) (u : String)
    (h : g.uids.contains u = true) : (applyNodeBatch g ns).uids.contains u = true := by
  induction ns generalizing g with
  | nil => exact h
  | cons n ns IH => exact IH (upsertNode g n) (mem_uids_upsertNode g n u h)

/-- A single link row and a single node upsert commute when the link's
endpoints already exist. -/
theorem linkRow_upsert_comm (g : Graph) (n : Node) (l : Link)
    (hs : g.uids.contains l.source_uid = true)
    (ht : g.uids.contains l.target_uid = true) :
    applyLinkRow (upsertNode g n) l = upsertNode (applyLinkRow g l) n := by
  have hcnd : g.uids.contains l.source_uid = true ∧
      g.uids.contains l.target_uid = true := ⟨hs, ht⟩
  have hcnd' : (upsertNode g n).uids.contains l.source_uid = true ∧
      (upsertNode g n).uids.contains l.target_uid = true :=
    ⟨mem_uids_upsertNode g n _ hs, mem_uids_upsertNode g n _ ht⟩
  unfold applyLinkRow
  rw [if_pos hcnd', if_pos hcnd, upsertNode_edges]
  rfl

/-- A link batch and a single node upsert commute when all link endpoints
already exist. -/
theorem linkBatch_upsert_comm (ls : List Link) (g : Graph) (n : Node)
    (h : ∀ l ∈ ls, g.uids.contains l.source_uid = true ∧
      g.uids.contains l.target_uid = true) :
    applyLinkBatch (upsertNode g n) ls = upsertNode (applyLinkBatch g ls) n := by
  induction ls generalizing g with
  | nil => rfl
  | cons l ls IH =>
    obtain ⟨⟨hs, ht⟩, hrest⟩ := List.forall_mem_cons.mp h
    show applyLinkBatch (applyLinkRow (upsertNode g n) l) ls =
      upsertNode (applyLinkBatch (applyLinkRow g l) ls) n
    rw [linkRow_upsert_comm g n l hs ht]
    apply IH
    intro l' hl'
    have : (applyLinkRow g l).uids = g.uids := by
      show (applyLinkRow g l).verts.map (·.1) = g.verts.map (·.1)
      rw [applyLinkRow_verts]
    rw [this]
    exact hrest l' hl'

/-- A link batch and a node batch commute when all link endpoints already
exist. -/
theorem linkBatch_nodeBatch_comm (ns : List Node) (g : Graph) (ls : List Link)
    (h : ∀ l ∈ ls, g.uids.contains l.source_uid = true ∧
      g.uids.contains l.target_uid = true) :
    applyLinkBatch (applyNodeBatch g ns) ls = applyNodeBatch (applyLinkBatch g ls) ns := by
  induction ns generalizing g with
  | nil => rfl
  | cons n ns IH =>
    show applyLinkBatch (applyNodeBatch (upsertNode g n) ns) ls =
      applyNodeBatch (upsertNode (applyLinkBatch g ls) n) ns
    rw [← linkBatch_upsert_comm ls g n h]
    apply IH
    intro l hl
    exact ⟨mem_uids_upsertNode g n _ (h l hl).1, mem_uids_upsertNode g n _ (h l hl).2⟩

/-- Claim C2, counterexample.  The claim says a link write
merge-or-creates both endpoint vertices (stubs if absent), so link and
node batches can be applied in either order.  The link flush instead
uses `MATCH` on both endpoints: applying the link batch `[a→b]` BEFORE
the node batch `[a, b]` on an empty store silently drops the edge, while
the other order creates it. -/
theorem C2_counterexample :
    (applyLinkBatch (flushNodes ⟨[], []⟩ [⟨"a", .TITLE, []⟩, ⟨"b", .TITLE, []⟩])
        [⟨"a", "b"⟩]).edges = [("a", "b")] ∧
    (flushNodes (applyLinkBatch ⟨[], []⟩ [⟨"a", "b"⟩])
        [⟨"a", .TITLE, []⟩, ⟨"b", .TITLE, []⟩]).edges = [] ∧
    ([("a", "b")] : List (String × String)) ≠ [] :=
  ⟨rfl, rfl, by decide⟩

/-- Claim C2, amended.  Link rows are `MATCH`–`MATCH`–`MERGE`: no stub
vertices are created, and a link row whose endpoints are absent is
silently dropped, so a Link batch must be applied after its endpoint
Node batch.  Order-independence holds exactly when every link endpoint
already exists in the store: then applying the Link batch before or
after the Node batch produces the same final graph. -/
theorem C2_theorem (g : Graph) (ns : List Node) (ls : List Link)
    (h : ∀ l ∈ ls, g.uids.contains l.source_uid = true ∧
      g.uids.contains l.target_uid = true) :
    applyLinkBatch (flushNodes g ns) ls = flushNodes (applyLinkBatch g ls) ns := by
  unfold flushNodes
  have h1 : ∀ l ∈ ls,
      (applyNodeBatch g (ns.filter (fun n => n.type = .TITLE))).uids.contains
        l.source_uid = true ∧
      (applyNodeBatch g (ns.filter (fun n => n.type = .TITLE))).uids.contains
        l.target_uid = true :=
    fun l hl => ⟨mem_uids_applyNodeBatch _ _ _ (h l hl).1,
      mem_uids_applyNodeBatch _ _ _ (h l hl).2⟩
  have h2 : ∀ l ∈ ls,
      (applyNodeBatch (applyNodeBatch g (ns.filter (fun n => n.type = .TITLE)))
          (ns.filter (fun n => n.type = .HEADING))).uids.contains l.source_uid = true ∧
      (applyNodeBatch (applyNodeBatch g (ns.filter (fun n => n.type = .TITLE)))
          (ns.filter (fun n => n.type = .HEADING))).uids.contains l.target_uid = true :=
    fun l hl => ⟨mem_uids_applyNodeBatch _ _ _ (h1 l hl).1,
      mem_uids_applyNodeBatch _ _ _ (h1 l hl).2⟩
  rw [linkBatch_nodeBatch_comm _ _ _ h2, linkBatch_nodeBatch_comm _ _ _ h1,
    linkBatch_nodeBatch_comm _ _ _ h]

/-- Witness for C2_theorem: a store already holding both endpoints. -/
theorem C2_witness :
    (∀ l ∈ ([⟨"a", "b"⟩] : List Link),
      (Graph.mk [("a", .TITLE, []), ("b", .TITLE, [])] []).uids.contains l.source_uid = true ∧
      (Graph.mk [("a", .TITLE, []), ("b", .TITLE, [])] []).uids.contains l.target_uid = true) ∧
    applyLinkBatch
        (flushNodes ⟨[("a", .TITLE, []), ("b", .TITLE, [])], []⟩
          [⟨"a", .TITLE, [("title", .s "a")]⟩]) [⟨"a", "b"⟩] =
      flushNodes
        (applyLinkBatch ⟨[("a", .TITLE, []), ("b", .TITLE, [])], []⟩ [⟨"a", "b"⟩])
        [⟨"a", .TITLE, [("title", .s "a")]⟩] :=
  ⟨by decide,
   C2_theorem ⟨[("a", .TITLE, []), ("b", .TITLE, [])], []⟩
     [⟨"a", .TITLE, [("title", .s "a")]⟩] [⟨"a", "b"⟩] (by decide)⟩

/-- Claim C9, counterexample.  The claim says that on a provider failure
every node of the batch is still written (without the vector) and a
warning is logged.  On a failing provider the code writes NO node of the
batch — the exception aborts the page and is logged as an error, not a
warning. -/
theorem C9_counterexample :
    (flushEmbedBuffer (fun _ => .error "boom") [(⟨"u", .PARAGRAPH, []⟩, "t")]).1 = [] ∧
    ([] : List Node) ≠ [⟨"u", .PARAGRAPH, []⟩] ∧
    (flushEmbedBuffer (fun _ => .error "boom") [(⟨"u", .PARAGRAPH, []⟩, "t")]).2.2 ≠
      some (.warning, "boom") :=
  ⟨rfl, by decide, by decide⟩

/-- Claim C9, amended.  When the embedding provider fails for a batch,
no node of that batch is written at that point: the exception propagates
to the per-page handler, which logs an ERROR and skips the rest of the
page, while the buffered (node, text) pairs are retained for a later
flush.  On success the buffer is cleared and every node is written with
its embedding property attached. -/
theorem C9_theorem :
    (∀ (embed : List String → Except String (List (List Int)))
        (buffer : List (Node × String)) (e : String),
      embed (buffer.map (·.2)) = .error e →
      flushEmbedBuffer embed buffer = ([], buffer, some (.error, e))) ∧
    (∀ (embed : List String → Except String (List (List Int)))
        (buffer : List (Node × String)) (vecs : List (List Int)),
      embed (buffer.map (·.2)) = .ok vecs →
      (flushEmbedBuffer embed buffer).2.1 = [] ∧
      ∀ n ∈ (flushEmbedBuffer embed buffer).1,
        ((n.properties.map (·.1)).contains "embedding") = true) := by
  constructor
  · intro embed buffer e h
    unfold flushEmbedBuffer
    rw [h]
  · intro embed buffer vecs h
    unfold flushEmbedBuffer
    rw [h]
    refine ⟨rfl, ?_⟩
    intro n hn
    simp only [List.mem_map] at hn
    obtain ⟨p, _, rfl⟩ := hn
    show (((setEmbedding p.1 p.2).properties).map (·.1)).contains "embedding" = true
    unfold setEmbedding
    by_cases hk : (p.1.properties.map (·.1)).contains "embedding"
    · rw [if_pos hk]
      have hkeys :
          (p.1.properties.map
              (fun q => if q.1 = "embedding" then ("embedding", PropVal.vec p.2) else q)).map
            (·.1) = p.1.properties.map (·.1) := by
        rw [List.map_map]
        apply List.map_congr_left
        intro q _
        by_cases hq : q.1 = "embedding" <;> simp [hq]
      show ((p.1.properties.map
          (fun q => if q.1 = "embedding" then ("embedding", PropVal.vec p.2) else q)).map
            (·.1)).contains "embedding" = true
      rw [hkeys]
      exact hk
    · rw [if_neg hk]
      show ((p.1.properties ++ [("embedding", PropVal.vec p.2)]).map (·.1)).contains
        "embedding" = true
      simp [List.contains_eq_any_beq, List.any_append]

/-- Witness for C9_theorem: both branches applied at concrete inputs. -/
theorem C9_witness :
    ((fun _ : List String => (Except.error "x" : Except String (List (List Int))))
        (([(Node.mk "u" .PARAGRAPH [], "t")]).map (·.2)) = .error "x") ∧
    flushEmbedBuffer (fun _ => .error "x") [(⟨"u", .PARAGRAPH, []⟩, "t")] =
      ([], [(⟨"u", .PARAGRAPH, []⟩, "t")], some (.error, "x")) ∧
    (flushEmbedBuffer (fun _ => .ok [[1, 2]]) [(⟨"u", .PARAGRAPH, []⟩, "t")]).2.1 = [] :=
  ⟨rfl, C9_theorem.1 (fun _ => .error "x") [(⟨"u", .PARAGRAPH, []⟩, "t")] "x" rfl,
   (C9_theorem.2 (fun _ => .ok [[1, 2]]) [(⟨"u", .PARAGRAPH, []⟩, "t")] [[1, 2]] rfl).1⟩
